import Mathlib

/-!
Verification of the opinion-search retrieval engine
(`src/baseline0.py`, `src/method1_rating.py`, `src/review.py`).

The Python code is shallowly embedded: text is `List Char`, terms are
`List Char`, postings sets are `Finset Nat` of document positions, and the
inverted index is a total function `Term → Finset Nat` whose default value
is the empty set (mirroring `dict.get(term, set())`).  All definitions are
executable, so concrete queries can be evaluated by `decide`.
-/

namespace OpinionSearch

/-- Index / query terms, as produced by the tokenizer. -/
abbrev Term := List Char

/-- Membership test for the regex character class `[A-Za-z0-9_]`
(`TOKEN_PATTERN` in baseline0.py), via ASCII code points. -/
def isWordChar (c : Char) : Bool :=
  decide ((65 ≤ c.toNat ∧ c.toNat ≤ 90) ∨ (97 ≤ c.toNat ∧ c.toNat ≤ 122) ∨
          (48 ≤ c.toNat ∧ c.toNat ≤ 57) ∨ c.toNat = 95)

/-- ASCII lowercasing of a single character, as `str.lower` acts on the
ASCII range (the only range that can survive `TOKEN_PATTERN`). -/
def pyLower (c : Char) : Char :=
  if 65 ≤ c.toNat ∧ c.toNat ≤ 90 then Char.ofNat (c.toNat + 32) else c

/-- Maximal runs of `isWordChar` characters, i.e. the matches of
`TOKEN_PATTERN.finditer`.  `cur` is the (reversed) run being accumulated. -/
def wordRuns : List Char → List Char → List (List Char)
  | cur, [] => if cur = [] then [] else [cur.reverse]
  | cur, c :: cs =>
      if isWordChar c then wordRuns (c :: cur) cs
      else if cur = [] then wordRuns [] cs else cur.reverse :: wordRuns [] cs

/-- Embedding of `_tokenize` (baseline0.py): lowercase (by default),
extract `[A-Za-z0-9_]+` runs, keep only tokens of length ≥ 2. -/
def tokenize (text : List Char) (lowercase : Bool) : List Term :=
  if text = [] then []
  else
    let t := if lowercase then text.map pyLower else text
    (wordRuns [] t).filter (fun tok => decide (2 ≤ tok.length))

/-- Embedding of the `Review` record (review.py) with the fields the
engine reads; `rating` and the helpfulness counters are Python ints. -/
structure Review where
  id : List Char
  text : List Char
  title : List Char
  rating : Int
  helpful : Int
  out_of_helpful : Int
  verified_purchase : Bool
deriving DecidableEq, Repr, Inhabited

/-- The `DEFAULT_STOPWORDS` set of baseline0.py. -/
def DEFAULT_STOPWORDS : List Term :=
  [r"the".data, r"a".data, r"an".data, r"and".data, r"or".data, r"of".data,
   r"to".data, r"in".data, r"is".data, r"it".data, r"for".data, r"on".data,
   r"this".data, r"that".data]

/-- One iteration of the inner loop of `_build_index`: insert `docId` into
the postings of every non-stopword token of the document. -/
def addDoc (idx : Term → Finset Nat) (stop : List Term) (docId : Nat) :
    List Term → Term → Finset Nat
  | [] => idx
  | tok :: toks =>
      if tok ∈ stop then addDoc idx stop docId toks
      else addDoc (fun u => if u = tok then insert docId (idx tok) else idx u)
            stop docId toks

/-- The enumerated loop of `_build_index` over the review list, starting at
document position `k`. -/
def buildIndexAux (stop : List Term) (lc : Bool) :
    (Term → Finset Nat) → Nat → List Review → Term → Finset Nat
  | idx, _, [] => idx
  | idx, docId, r :: rs =>
      buildIndexAux stop lc (addDoc idx stop docId (tokenize r.text lc))
        (docId + 1) rs

/-- Embedding of `_build_index`: the inverted index as a total function
with empty-set default, exactly `inverted_index.get(term, set())`. -/
def buildIndex (reviews : List Review) (stop : List Term) (lc : Bool) :
    Term → Finset Nat :=
  buildIndexAux stop lc (fun _ => ∅) 0 reviews

/-- State of a `BaselineBooleanSearch` object after `__init__`. -/
structure BaselineBooleanSearch where
  reviews : List Review
  lowercase : Bool
  stopwords : List Term
  invertedIndex : Term → Finset Nat

/-- `BaselineBooleanSearch.__init__`: store the corpus and build the
index. -/
def mkBaseline (reviews : List Review) (stop : List Term) (lc : Bool) :
    BaselineBooleanSearch :=
  ⟨reviews, lc, stop, buildIndex reviews stop lc⟩

/-- Embedding of `_normalize_query`: tokenize, drop stopwords. -/
def normalizeQuery (e : BaselineBooleanSearch) (q : List Char) : List Term :=
  (tokenize q e.lowercase).filter (fun t => decide (t ∉ e.stopwords))

/-- Embedding of `query.split(':', 1)`: the part before the first colon and
the part after it. -/
def splitFirstColon (q : List Char) : List Char × List Char :=
  (q.takeWhile (fun c => decide (c ≠ ':')),
   (q.dropWhile (fun c => decide (c ≠ ':'))).tail)

/-- Embedding of `_parse_opinion_query`. -/
def parseOpinionQuery (e : BaselineBooleanSearch) (q : List Char) :
    List Term × List Term :=
  let parts := splitFirstColon q
  (normalizeQuery e parts.1, normalizeQuery e parts.2)

/-- Embedding of `_get_docs_with_any_term`: union of the postings of all
the terms. -/
def getDocsWithAnyTerm (e : BaselineBooleanSearch) (terms : List Term) :
    Finset Nat :=
  terms.foldl (fun acc t => acc ∪ e.invertedIndex t) ∅

/-- Document lookup `self.reviews[doc_id]` (total, since every candidate
position produced by the engine is in range). -/
def reviewAt (reviews : List Review) (docId : Nat) : Review :=
  (reviews[docId]?).getD default

/-- The per-document count of `_score_candidates`:
`sum(1 for t in query_terms if t in doc_token_set)` — each occurrence in
`query_terms` is counted. -/
def countMatches (queryTerms : List Term) (docTokens : List Term) : Nat :=
  (queryTerms.filter (fun t => decide (t ∈ docTokens))).length

/-- Canonical ascending list of a multiset of document positions. -/
def multisetAsc (s : Multiset Nat) : List Nat :=
  Quot.liftOn s (fun l => List.insertionSort (fun a b => a ≤ b) l)
    (fun _ _ h => List.eq_of_perm_of_sorted
      ((List.perm_insertionSort _ _).trans
        (h.trans (List.perm_insertionSort _ _).symm))
      (List.sorted_insertionSort _ _) (List.sorted_insertionSort _ _))

/-- Canonical ascending list of a candidate set. -/
def finsetAsc (s : Finset Nat) : List Nat := multisetAsc s.val

/-- Embedding of `_score_candidates`: re-tokenize each candidate body
(without stopword removal) and count matched query terms.  The candidate
set is traversed in ascending order; the final ranking is independent of
the traversal order because document positions are distinct and the sort
key `(-score, doc_id)` is injective on them. -/
def scoreCandidates (e : BaselineBooleanSearch) (candidates : Finset Nat)
    (queryTerms : List Term) : List (Nat × Nat) :=
  (finsetAsc candidates).map (fun docId =>
    (docId, countMatches queryTerms
      (tokenize (reviewAt e.reviews docId).text e.lowercase)))

/-- The sort key `lambda x: (-x[1], x[0])` as an order relation:
score descending, then document position ascending. -/
def scoreRel (a b : Nat × Nat) : Prop :=
  b.2 < a.2 ∨ (a.2 = b.2 ∧ a.1 ≤ b.1)

instance : DecidableRel scoreRel := fun a b => by
  unfold scoreRel; exact inferInstance

instance : IsTotal (Nat × Nat) scoreRel :=
  ⟨by intro a b; unfold scoreRel; omega⟩

instance : IsTrans (Nat × Nat) scoreRel :=
  ⟨by intro a b c; unfold scoreRel; omega⟩

/-- The shared tail of every search path: `if not candidates: return []`,
then score, sort by `(-score, doc_id)` and truncate to `top_k`. -/
def rankTruncate (e : BaselineBooleanSearch) (candidates : Finset Nat)
    (allQueryTerms : List Term) (topK : Nat) : List (Nat × Nat) :=
  if candidates = ∅ then []
  else (List.insertionSort scoreRel
    (scoreCandidates e candidates allQueryTerms)).take topK

/-- The string `"and"` used as the default mode flag. -/
def andMode : String := "and"

/-- The string `"or"`. -/
def orMode : String := "or"

/-- Candidate construction of `_regular_search`: AND starts from the first
postings set and intersects, anything else unions. -/
def regularCandidates (e : BaselineBooleanSearch) (terms : List Term)
    (mode : String) : Finset Nat :=
  let postingsSets := terms.map (fun t => e.invertedIndex t)
  if mode = andMode then
    postingsSets.tail.foldl (fun a b => a ∩ b) (postingsSets.headD ∅)
  else postingsSets.foldl (fun a b => a ∪ b) ∅

/-- Embedding of `_regular_search`, returning the ranked
`(doc_id, score)` pairs. -/
def regularRanked (e : BaselineBooleanSearch) (terms : List Term)
    (mode : String) (topK : Nat) : List (Nat × Nat) :=
  if terms = [] then []
  else rankTruncate e (regularCandidates e terms mode) terms topK

/-- The aspect-opinion candidate set, `aspect_docs & opinion_docs`, built
identically in `BaselineBooleanSearch.search` and
`RatingFilterSearch.search`. -/
def aspectOpinionCandidates (e : BaselineBooleanSearch)
    (aspectTerms opinionTerms : List Term) : Finset Nat :=
  getDocsWithAnyTerm e aspectTerms ∩ getDocsWithAnyTerm e opinionTerms

/-- Embedding of `BaselineBooleanSearch.search`, returning the ranked
`(doc_id, score)` pairs. -/
def searchRanked (e : BaselineBooleanSearch) (q : List Char) (mode : String)
    (topK : Nat) : List (Nat × Nat) :=
  if ':' ∈ q then
    let parsed := parseOpinionQuery e q
    if parsed.1 = [] ∨ parsed.2 = [] then
      regularRanked e (normalizeQuery e q) mode topK
    else
      rankTruncate e (aspectOpinionCandidates e parsed.1 parsed.2)
        (parsed.1 ++ parsed.2) topK
  else regularRanked e (normalizeQuery e q) mode topK

/-- The query-term sequence that `search` passes to `_score_candidates`
on each of its paths. -/
def queryTermsOf (e : BaselineBooleanSearch) (q : List Char) : List Term :=
  if ':' ∈ q then
    let parsed := parseOpinionQuery e q
    if parsed.1 = [] ∨ parsed.2 = [] then normalizeQuery e q
    else parsed.1 ++ parsed.2
  else normalizeQuery e q

/-- The `BooleanSearchResult` dataclass. -/
structure BooleanSearchResult where
  review : Review
  score : Nat
deriving DecidableEq, Repr

/-- The result-building loop: wrap each ranked pair in a
`BooleanSearchResult`. -/
def toResults (reviews : List Review) (ranked : List (Nat × Nat)) :
    List BooleanSearchResult :=
  ranked.map (fun p => ⟨reviewAt reviews p.1, p.2⟩)

/-- `BaselineBooleanSearch.search` with its result objects. -/
def search (e : BaselineBooleanSearch) (q : List Char) (mode : String)
    (topK : Nat) : List BooleanSearchResult :=
  toResults e.reviews (searchRanked e q mode topK)

/-- State of a `RatingFilterSearch` object (method1_rating.py) after
`__init__`; the two lexicons are taken as already-loaded term sets. -/
structure RatingFilterSearch where
  baseline : BaselineBooleanSearch
  reviews : List Review
  positive_words : List Term
  negative_words : List Term

/-- `RatingFilterSearch.__init__`: the inner baseline engine is built with
the default stopwords and lowercasing. -/
def mkRatingFilterSearch (reviews : List Review)
    (posW negW : List Term) : RatingFilterSearch :=
  ⟨mkBaseline reviews DEFAULT_STOPWORDS true, reviews, posW, negW⟩

/-- The polarity label `'positive'`. -/
def positivePolarity : String := "positive"

/-- The polarity label `'negative'`. -/
def negativePolarity : String := "negative"

/-- The polarity label `'neutral'`. -/
def neutralPolarity : String := "neutral"

/-- Embedding of `_get_opinion_polarity`: compare the number of opinion
terms found in each lexicon. -/
def getOpinionPolarity (m : RatingFilterSearch) (opinionTerms : List Term) :
    String :=
  let positive_count :=
    (opinionTerms.filter (fun t => decide (t ∈ m.positive_words))).length
  let negative_count :=
    (opinionTerms.filter (fun t => decide (t ∈ m.negative_words))).length
  if negative_count < positive_count then positivePolarity
  else if positive_count < negative_count then negativePolarity
  else neutralPolarity

/-- Embedding of `RatingFilterSearch.search`, returning the ranked
`(doc_id, score)` pairs. -/
def m1SearchRanked (m : RatingFilterSearch) (q : List Char) (topK : Nat) :
    List (Nat × Nat) :=
  if ':' ∉ q then searchRanked m.baseline q andMode topK
  else
    let parsed := parseOpinionQuery m.baseline q
    if parsed.1 = [] ∨ parsed.2 = [] then searchRanked m.baseline q andMode topK
    else
      let candidates := aspectOpinionCandidates m.baseline parsed.1 parsed.2
      if candidates = ∅ then []
      else
        let polarity := getOpinionPolarity m parsed.2
        let filtered :=
          if polarity = positivePolarity then
            candidates.filter (fun c => 3 < (reviewAt m.reviews c).rating)
          else if polarity = negativePolarity then
            candidates.filter (fun c => (reviewAt m.reviews c).rating ≤ 3)
          else candidates
        rankTruncate m.baseline filtered (parsed.1 ++ parsed.2) topK

/-- `RatingFilterSearch.search` with its result objects. -/
def m1Search (m : RatingFilterSearch) (q : List Char) (topK : Nat) :
    List BooleanSearchResult :=
  toResults m.reviews (m1SearchRanked m q topK)

/-!  Field conversion in `Review.__init__` (review.py).  The raw pickle
fields are Python values that can be `None`, an int, or a string; the
embedding models `int(...)`, truthiness, and `_safe_int` on that value
space. -/

/-- A raw field value as it arrives from the pickle. -/
inductive PyValue where
  | none : PyValue
  | int : Int → PyValue
  | str : List Char → PyValue
deriving DecidableEq, Repr

/-- ASCII decimal digit test. -/
def isPyDigit (c : Char) : Bool := decide (48 ≤ c.toNat ∧ c.toNat ≤ 57)

/-- Whitespace stripped by `int(str)` / `str.strip()`. -/
def isPySpace (c : Char) : Bool :=
  decide (c = ' ' ∨ c = '\t' ∨ c = '\n' ∨ c = '\r' ∨ c = '\x0b' ∨ c = '\x0c')

/-- Strip whitespace from both ends. -/
def pyStrip (s : List Char) : List Char :=
  ((s.dropWhile isPySpace).reverse.dropWhile isPySpace).reverse

/-- Decimal value of a digit run. -/
def digitsVal : List Char → Nat → Nat
  | [], acc => acc
  | c :: cs, acc => digitsVal cs (10 * acc + (c.toNat - 48))

/-- The exception message of a failed int parse. -/
def valueErrorMsg : String := "ValueError"

/-- The exception message of `int(None)`. -/
def typeErrorMsg : String := "TypeError"

/-- CPython `int(s)` on a string: strip whitespace, optional single sign,
then a non-empty all-digit run; anything else raises `ValueError`.
(Digit-group underscores and non-ASCII digits are not modelled; no claim
depends on them.) -/
def pyIntOfString (s : List Char) : Except String Int :=
  let t := pyStrip s
  match t with
  | [] => Except.error valueErrorMsg
  | c :: rest =>
      let signDigits : Int × List Char :=
        if c = '+' then (1, rest) else if c = '-' then (-1, rest) else (1, t)
      if signDigits.2 ≠ [] ∧ signDigits.2.all isPyDigit then
        Except.ok (signDigits.1 * (digitsVal signDigits.2 0 : Int))
      else Except.error valueErrorMsg

/-- Python truthiness of a raw field value. -/
def pyTruthy : PyValue → Bool
  | PyValue.none => false
  | PyValue.int n => decide (n ≠ 0)
  | PyValue.str s => decide (s ≠ [])

/-- The builtin `int(...)` on a raw field value: identity on ints, string
parse on strings, `TypeError` on `None`. -/
def pyInt : PyValue → Except String Int
  | PyValue.none => Except.error typeErrorMsg
  | PyValue.int n => Except.ok n
  | PyValue.str s => pyIntOfString s

/-- The rating conversion in `Review.__init__`:
`self.rating = int(rating) if rating else 0`.  An exception raised by
`int(rating)` propagates, hence the `Except` result. -/
def ratingOfField (rating : PyValue) : Except String Int :=
  if pyTruthy rating then pyInt rating else Except.ok 0

/-- Embedding of `Review._safe_int`: `None` and the empty string map to 0,
otherwise `int(value)` with `ValueError`/`TypeError` caught and replaced
by 0. -/
def safeInt (value : PyValue) : Int :=
  if value = PyValue.none ∨ value = PyValue.str [] then 0
  else
    match pyInt value with
    | Except.ok n => n
    | Except.error _ => 0

/-- Score as claim C1 words it (modelled from the spec for comparison with
`countMatches`): the number of DEDUPLICATED query terms present in the
document token set. -/
def dedupMatchCount (queryTerms : List Term) (docTokens : List Term) : Nat :=
  (queryTerms.dedup.filter (fun t => decide (t ∈ docTokens))).length

/-- The ranking order asserted by the spec: score strictly greater, or
equal score and strictly smaller document position. -/
def resultOrder (a b : Nat × Nat) : Prop :=
  b.2 < a.2 ∨ (a.2 = b.2 ∧ a.1 < b.1)

/-!  Concrete fixtures used for witnesses and counterexamples. -/

/-- A five-star review mentioning audio. -/
def wRev1 : Review := ⟨r"r1".data, r"good audio".data, r"".data, 5, 0, 0, true⟩

/-- A two-star review mentioning audio. -/
def wRev2 : Review :=
  ⟨r"r2".data, r"poor audio quality".data, r"".data, 2, 0, 0, true⟩

/-- A two-document baseline engine with no stopwords. -/
def wE : BaselineBooleanSearch := mkBaseline [wRev1, wRev2] [] true

/-- A two-document Method-1 engine with one-word lexicons. -/
def wM : RatingFilterSearch :=
  mkRatingFilterSearch [wRev1, wRev2] [r"good".data] [r"poor".data]

/-- The aspect-term list parsed from `audio:good` on `wE`. -/
def wAspect : List Term := [r"audio".data]

/-- The opinion-term list parsed from `audio:good` on `wE`. -/
def wOpinion : List Term := [r"good".data]

/-- The query string `audio`. -/
def qAudio : List Char := r"audio".data

/-- The query string `audio:good`. -/
def qAudioGood : List Char := r"audio:good".data

/-- The query string `audio:` (empty opinion side). -/
def qAudioColon : List Char := r"audio:".data

/-- The query string `audio audio` (duplicated term). -/
def qAudioAudio : List Char := r"audio audio".data

/-- A query term absent from every document. -/
def tZzz : Term := r"zzz".data

/-- The query string `zzz`. -/
def qZzz : List Char := r"zzz".data

/-!  Basic lemmas about the candidate-set extraction. -/

/-- The ascending extraction of a multiset is one of its list
representatives. -/
theorem multisetAsc_coe (s : Multiset Nat) : (multisetAsc s : Multiset Nat) = s := by
  refine Quot.inductionOn s (fun l => ?_)
  exact Quot.sound (List.perm_insertionSort _ _)

/-- Membership in `finsetAsc` is membership in the candidate set. -/
theorem mem_finsetAsc (s : Finset Nat) (d : Nat) : d ∈ finsetAsc s ↔ d ∈ s := by
  unfold finsetAsc
  rw [← Multiset.mem_coe, multisetAsc_coe]
  rfl

/-- The ascending extraction of a candidate set has no duplicates. -/
theorem finsetAsc_nodup (s : Finset Nat) : (finsetAsc s).Nodup := by
  have h : ((finsetAsc s : List Nat) : Multiset Nat).Nodup := by
    unfold finsetAsc
    rw [multisetAsc_coe]
    exact s.nodup
  exact Multiset.coe_nodup.mp h

/-!  Tokenizer lemmas. -/

/-- Evaluation of `Char.ofNat` on the lowercase ASCII range. -/
theorem char_toNat_ofNat_lower (n : Nat) (h1 : 97 ≤ n) (h2 : n ≤ 122) :
    (Char.ofNat n).toNat = n := by
  interval_cases n <;> decide

/-- Lowercasing never produces an uppercase ASCII letter. -/
theorem pyLower_not_upper (c : Char) :
    ¬(65 ≤ (pyLower c).toNat ∧ (pyLower c).toNat ≤ 90) := by
  unfold pyLower
  by_cases h : 65 ≤ c.toNat ∧ c.toNat ≤ 90
  · rw [if_pos h, char_toNat_ofNat_lower _ (by omega) (by omega)]
    omega
  · rw [if_neg h]
    exact h

/-- Every character of every run is a word character, provided the
accumulator holds only word characters. -/
theorem wordRuns_wordChar (rest : List Char) :
    ∀ (cur : List Char), (∀ c ∈ cur, isWordChar c = true) →
      ∀ r ∈ wordRuns cur rest, ∀ c ∈ r, isWordChar c = true := by
  induction rest with
  | nil =>
      intro cur hcur r hr c hc
      unfold wordRuns at hr
      by_cases h : cur = []
      · rw [if_pos h] at hr
        simp at hr
      · rw [if_neg h] at hr
        simp only [List.mem_singleton] at hr
        subst hr
        exact hcur c (List.mem_reverse.mp hc)
  | cons x xs ih =>
      intro cur hcur r hr c hc
      unfold wordRuns at hr
      by_cases hx : isWordChar x = true
      · rw [if_pos hx] at hr
        refine ih (x :: cur) ?_ r hr c hc
        intro d hd
        rcases List.mem_cons.mp hd with h1 | h2
        · rw [h1]; exact hx
        · exact hcur d h2
      · rw [if_neg hx] at hr
        by_cases hcur0 : cur = []
        · rw [if_pos hcur0] at hr
          exact ih [] (by simp) r hr c hc
        · rw [if_neg hcur0] at hr
          rcases List.mem_cons.mp hr with h1 | h2
          · subst h1
            exact hcur c (List.mem_reverse.mp hc)
          · exact ih [] (by simp) r h2 c hc

/-- Every character of every run comes from the accumulator or the
remaining input. -/
theorem wordRuns_mem_chars (rest : List Char) :
    ∀ (cur r : List Char), r ∈ wordRuns cur rest →
      ∀ c ∈ r, c ∈ cur ∨ c ∈ rest := by
  induction rest with
  | nil =>
      intro cur r hr c hc
      unfold wordRuns at hr
      by_cases h : cur = []
      · rw [if_pos h] at hr
        simp at hr
      · rw [if_neg h] at hr
        simp only [List.mem_singleton] at hr
        subst hr
        exact Or.inl (List.mem_reverse.mp hc)
  | cons x xs ih =>
      intro cur r hr c hc
      unfold wordRuns at hr
      by_cases hx : isWordChar x = true
      · rw [if_pos hx] at hr
        rcases ih (x :: cur) r hr c hc with h | h
        · rcases List.mem_cons.mp h with h1 | h2
          · exact Or.inr (List.mem_cons.mpr (Or.inl h1))
          · exact Or.inl h2
        · exact Or.inr (List.mem_cons_of_mem _ h)
      · rw [if_neg hx] at hr
        by_cases hcur0 : cur = []
        · rw [if_pos hcur0] at hr
          rcases ih [] r hr c hc with h | h
          · simp at h
          · exact Or.inr (List.mem_cons_of_mem _ h)
        · rw [if_neg hcur0] at hr
          rcases List.mem_cons.mp hr with h1 | h2
          · subst h1
            exact Or.inl (List.mem_reverse.mp hc)
          · rcases ih [] r h2 c hc with h | h
            · simp at h
            · exact Or.inr (List.mem_cons_of_mem _ h)

/-- A token is a long-enough run of the (possibly lowercased) text. -/
theorem mem_tokenize (text : List Char) (lc : Bool) (t : Term)
    (ht : t ∈ tokenize text lc) :
    2 ≤ t.length ∧ t ∈ wordRuns [] (if lc then text.map pyLower else text) := by
  by_cases h0 : text = []
  · simp [tokenize, h0] at ht
  · simp only [tokenize, if_neg h0, List.mem_filter, decide_eq_true_eq] at ht
    exact ⟨ht.2, ht.1⟩

/-- C9: every term emitted by the tokenizer has length at least 2 and
consists only of `[A-Za-z0-9_]` characters, with no uppercase ASCII letter
left when lowercasing is on; tokenizing the empty string yields the empty
sequence. -/
theorem c9_tokenizer_output_normalized :
    (∀ (text : List Char) (lc : Bool) (t : Term), t ∈ tokenize text lc →
      2 ≤ t.length ∧ (∀ c ∈ t, isWordChar c = true) ∧
      (lc = true → ∀ c ∈ t, ¬(65 ≤ c.toNat ∧ c.toNat ≤ 90))) ∧
    (∀ lc : Bool, tokenize [] lc = []) := by
  constructor
  · intro text lc t ht
    obtain ⟨hlen, hrun⟩ := mem_tokenize text lc t ht
    refine ⟨hlen, ?_, ?_⟩
    · exact wordRuns_wordChar _ [] (by simp) t hrun
    · intro hlc c hc
      subst hlc
      rw [if_pos rfl] at hrun
      rcases wordRuns_mem_chars _ [] t hrun c hc with h | h
      · simp at h
      · obtain ⟨d, _, rfl⟩ := List.mem_map.mp h
        exact pyLower_not_upper d
  · intro lc
    rfl

/-- Witness for C9 at the input `Ab!`. -/
theorem c9_witness :
    ((r"ab".data : Term) ∈ tokenize (r"Ab!".data) true) ∧
    (2 ≤ (r"ab".data : List Char).length ∧
      (∀ c ∈ (r"ab".data : List Char), isWordChar c = true) ∧
      (true = true → ∀ c ∈ (r"ab".data : List Char),
        ¬(65 ≤ c.toNat ∧ c.toNat ≤ 90))) ∧
    tokenize [] true = [] :=
  ⟨by decide,
   c9_tokenizer_output_normalized.1 (r"Ab!".data) true (r"ab".data) (by decide),
   c9_tokenizer_output_normalized.2 true⟩

/-!  Index soundness: a posting entry always witnesses a token of the
corresponding document. -/

/-- Unfolding one document insertion. -/
theorem mem_addDoc (stop : List Term) (docId : Nat) :
    ∀ (toks : List Term) (idx : Term → Finset Nat) (t : Term) (d : Nat),
      d ∈ addDoc idx stop docId toks t →
      d ∈ idx t ∨ (d = docId ∧ t ∈ toks ∧ t ∉ stop) := by
  intro toks
  induction toks with
  | nil =>
      intro idx t d hd
      exact Or.inl hd
  | cons tok toks ih =>
      intro idx t d hd
      unfold addDoc at hd
      by_cases hs : tok ∈ stop
      · rw [if_pos hs] at hd
        rcases ih idx t d hd with h | ⟨h1, h2, h3⟩
        · exact Or.inl h
        · exact Or.inr ⟨h1, List.mem_cons_of_mem _ h2, h3⟩
      · rw [if_neg hs] at hd
        rcases ih _ t d hd with h | ⟨h1, h2, h3⟩
        · by_cases htok : t = tok
          · rw [if_pos htok] at h
            rcases Finset.mem_insert.mp h with h1 | h1
            · exact Or.inr ⟨h1, List.mem_cons.mpr (Or.inl htok), htok ▸ hs⟩
            · exact Or.inl (htok ▸ h1)
          · rw [if_neg htok] at h
            exact Or.inl h
        · exact Or.inr ⟨h1, List.mem_cons_of_mem _ h2, h3⟩

/-- Unfolding the enumerated build loop. -/
theorem mem_buildIndexAux (stop : List Term) (lc : Bool) :
    ∀ (revs : List Review) (idx : Term → Finset Nat) (k : Nat) (t : Term)
      (d : Nat), d ∈ buildIndexAux stop lc idx k revs t →
      d ∈ idx t ∨ ∃ j r, revs[j]? = some r ∧ d = k + j ∧
        t ∈ tokenize r.text lc ∧ t ∉ stop := by
  intro revs
  induction revs with
  | nil =>
      intro idx k t d hd
      exact Or.inl hd
  | cons r rs ih =>
      intro idx k t d hd
      unfold buildIndexAux at hd
      rcases ih _ (k + 1) t d hd with h | ⟨j, r', hj, hdk, htok, hstop⟩
      · rcases mem_addDoc stop k (tokenize r.text lc) idx t d h with h' | ⟨h1, h2, h3⟩
        · exact Or.inl h'
        · exact Or.inr ⟨0, r, by simp, by omega, h2, h3⟩
      · exact Or.inr ⟨j + 1, r', by simpa using hj, by omega, htok, hstop⟩

/-- Soundness of the inverted index: a document position in a term's
postings set indexes a review whose tokenized body contains the term, and
the term is not a stopword. -/
theorem mem_buildIndex (revs : List Review) (stop : List Term) (lc : Bool)
    (t : Term) (d : Nat) (hd : d ∈ buildIndex revs stop lc t) :
    ∃ r, revs[d]? = some r ∧ t ∈ tokenize r.text lc ∧ t ∉ stop := by
  rcases mem_buildIndexAux stop lc revs _ 0 t d hd with h | ⟨j, r, hj, hdk, ht, hs⟩
  · simp at h
  · have hjd : j = d := by omega
    subst hjd
    exact ⟨r, hj, ht, hs⟩

/-- In-range lookup agrees with the optional lookup. -/
theorem reviewAt_of_getElem (revs : List Review) (d : Nat) (r : Review)
    (h : revs[d]? = some r) : reviewAt revs d = r := by
  simp [reviewAt, h]

/-!  Candidate-set lemmas. -/

/-- Membership in the fold that unions postings sets. -/
theorem mem_getDocsWithAnyTerm_aux (e : BaselineBooleanSearch) :
    ∀ (ts : List Term) (init : Finset Nat) (d : Nat),
      d ∈ ts.foldl (fun acc t => acc ∪ e.invertedIndex t) init ↔
        d ∈ init ∨ ∃ t ∈ ts, d ∈ e.invertedIndex t := by
  intro ts
  induction ts with
  | nil => simp
  | cons t ts ih =>
      intro init d
      rw [List.foldl_cons, ih]
      simp only [Finset.mem_union, List.mem_cons]
      constructor
      · rintro ((h | h) | ⟨u, hu, hd⟩)
        · exact Or.inl h
        · exact Or.inr ⟨t, Or.inl rfl, h⟩
        · exact Or.inr ⟨u, Or.inr hu, hd⟩
      · rintro (h | ⟨u, (rfl | hu), hd⟩)
        · exact Or.inl (Or.inl h)
        · exact Or.inl (Or.inr hd)
        · exact Or.inr ⟨u, hu, hd⟩

/-- `_get_docs_with_any_term` returns exactly the documents holding at
least one of the terms. -/
theorem mem_getDocsWithAnyTerm (e : BaselineBooleanSearch) (ts : List Term)
    (d : Nat) :
    d ∈ getDocsWithAnyTerm e ts ↔ ∃ t ∈ ts, d ∈ e.invertedIndex t := by
  unfold getDocsWithAnyTerm
  rw [mem_getDocsWithAnyTerm_aux]
  simp

/-- The union fold is the list-indexed union. -/
theorem mem_foldl_union :
    ∀ (l : List (Finset Nat)) (init : Finset Nat) (d : Nat),
      d ∈ l.foldl (fun a b => a ∪ b) init ↔ d ∈ init ∨ ∃ s ∈ l, d ∈ s := by
  intro l
  induction l with
  | nil => simp
  | cons s l ih =>
      intro init d
      rw [List.foldl_cons, ih]
      simp only [Finset.mem_union, List.mem_cons]
      constructor
      · rintro ((h | h) | ⟨u, hu, hd⟩)
        · exact Or.inl h
        · exact Or.inr ⟨s, Or.inl rfl, h⟩
        · exact Or.inr ⟨u, Or.inr hu, hd⟩
      · rintro (h | ⟨u, (rfl | hu), hd⟩)
        · exact Or.inl (Or.inl h)
        · exact Or.inl (Or.inr hd)
        · exact Or.inr ⟨u, hu, hd⟩

/-- The intersection fold shrinks its starting set. -/
theorem foldl_inter_subset :
    ∀ (l : List (Finset Nat)) (init : Finset Nat),
      l.foldl (fun a b => a ∩ b) init ⊆ init := by
  intro l
  induction l with
  | nil =>
      intro init
      simp
  | cons s l ih =>
      intro init
      rw [List.foldl_cons]
      exact (ih _).trans Finset.inter_subset_left

/-- Any document surviving `_regular_search` candidate construction holds
at least one query term. -/
theorem mem_regularCandidates (e : BaselineBooleanSearch) (ts : List Term)
    (mode : String) (d : Nat) (hne : ts ≠ [])
    (hd : d ∈ regularCandidates e ts mode) :
    ∃ t ∈ ts, d ∈ e.invertedIndex t := by
  obtain ⟨t0, ts', rfl⟩ := List.exists_cons_of_ne_nil hne
  unfold regularCandidates at hd
  by_cases hm : mode = andMode
  · rw [if_pos hm] at hd
    simp only [List.map_cons, List.tail_cons, List.headD_cons] at hd
    have h := foldl_inter_subset (ts'.map fun t => e.invertedIndex t)
      (e.invertedIndex t0) hd
    exact ⟨t0, List.mem_cons_self t0 ts', h⟩
  · rw [if_neg hm] at hd
    rw [mem_foldl_union] at hd
    rcases hd with h | ⟨s, hs, hds⟩
    · simp at h
    · obtain ⟨t, ht, rfl⟩ := List.mem_map.mp hs
      exact ⟨t, ht, hds⟩

/-!  Scoring and ranking lemmas. -/

/-- Anything surviving ranking and truncation was produced by the
scorer. -/
theorem mem_rankTruncate (e : BaselineBooleanSearch) (C : Finset Nat)
    (ts : List Term) (k : Nat) (p : Nat × Nat)
    (hp : p ∈ rankTruncate e C ts k) : p ∈ scoreCandidates e C ts := by
  unfold rankTruncate at hp
  by_cases hC : C = ∅
  · rw [if_pos hC] at hp
    simp at hp
  · rw [if_neg hC] at hp
    exact ((List.perm_insertionSort scoreRel _).mem_iff).mp
      (List.mem_of_mem_take hp)

/-- Shape of a scored pair: a candidate position together with its match
count. -/
theorem mem_scoreCandidates (e : BaselineBooleanSearch) (C : Finset Nat)
    (ts : List Term) (p : Nat × Nat) (hp : p ∈ scoreCandidates e C ts) :
    p.1 ∈ C ∧ p.2 = countMatches ts
      (tokenize (reviewAt e.reviews p.1).text e.lowercase) := by
  unfold scoreCandidates at hp
  obtain ⟨d, hd, rfl⟩ := List.mem_map.mp hp
  exact ⟨(mem_finsetAsc _ _).mp hd, rfl⟩

/-- A shared query and document term forces a positive match count. -/
theorem countMatches_pos (ts docTokens : List Term) (t : Term)
    (ht : t ∈ ts) (htok : t ∈ docTokens) : 1 ≤ countMatches ts docTokens := by
  unfold countMatches
  have hmem : t ∈ ts.filter (fun t => decide (t ∈ docTokens)) :=
    List.mem_filter.mpr ⟨ht, by simpa using htok⟩
  have hne := List.ne_nil_of_mem hmem
  have hpos := List.length_pos.mpr hne
  omega

/-!  Branch decompositions of the two search entry points. -/

/-- `search` either takes the aspect-opinion path or the plain path, with
the matching query-term sequence. -/
theorem searchRanked_eq (e : BaselineBooleanSearch) (q : List Char)
    (mode : String) (k : Nat) :
    (∃ a o, parseOpinionQuery e q = (a, o) ∧ ':' ∈ q ∧ a ≠ [] ∧ o ≠ [] ∧
      queryTermsOf e q = a ++ o ∧
      searchRanked e q mode k =
        rankTruncate e (aspectOpinionCandidates e a o) (a ++ o) k) ∨
    (queryTermsOf e q = normalizeQuery e q ∧
      searchRanked e q mode k = regularRanked e (normalizeQuery e q) mode k) := by
  by_cases hc : ':' ∈ q
  · by_cases he : (parseOpinionQuery e q).1 = [] ∨ (parseOpinionQuery e q).2 = []
    · right
      exact ⟨by simp [queryTermsOf, hc, he], by simp [searchRanked, hc, he]⟩
    · left
      refine ⟨(parseOpinionQuery e q).1, (parseOpinionQuery e q).2, rfl, hc,
        fun h => he (Or.inl h), fun h => he (Or.inr h), ?_, ?_⟩
      · simp [queryTermsOf, hc, he]
      · simp [searchRanked, hc, he]
  · right
    exact ⟨by simp [queryTermsOf, hc], by simp [searchRanked, hc]⟩

/-- `_regular_search` either short-circuits on an empty term sequence or
ranks its boolean candidates. -/
theorem regularRanked_eq (e : BaselineBooleanSearch) (ts : List Term)
    (mode : String) (k : Nat) :
    (ts = [] ∧ regularRanked e ts mode k = []) ∨
    (ts ≠ [] ∧ regularRanked e ts mode k =
      rankTruncate e (regularCandidates e ts mode) ts k) := by
  by_cases h : ts = []
  · exact Or.inl ⟨h, by simp [regularRanked, h]⟩
  · exact Or.inr ⟨h, by simp [regularRanked, h]⟩

/-- `RatingFilterSearch.search` either falls back to the baseline or ranks
a polarity-filtered aspect-opinion candidate set. -/
theorem m1SearchRanked_eq (m : RatingFilterSearch) (q : List Char) (k : Nat) :
    (m1SearchRanked m q k = searchRanked m.baseline q andMode k) ∨
    (∃ a o, parseOpinionQuery m.baseline q = (a, o) ∧ ':' ∈ q ∧ a ≠ [] ∧
      o ≠ [] ∧
      m1SearchRanked m q k =
        (if aspectOpinionCandidates m.baseline a o = ∅ then []
         else rankTruncate m.baseline
           (if getOpinionPolarity m o = positivePolarity then
              (aspectOpinionCandidates m.baseline a o).filter
                (fun c => 3 < (reviewAt m.reviews c).rating)
            else if getOpinionPolarity m o = negativePolarity then
              (aspectOpinionCandidates m.baseline a o).filter
                (fun c => (reviewAt m.reviews c).rating ≤ 3)
            else aspectOpinionCandidates m.baseline a o) (a ++ o) k)) := by
  by_cases hc : ':' ∈ q
  · by_cases he : (parseOpinionQuery m.baseline q).1 = [] ∨
        (parseOpinionQuery m.baseline q).2 = []
    · left
      simp [m1SearchRanked, hc, he]
    · right
      refine ⟨(parseOpinionQuery m.baseline q).1,
        (parseOpinionQuery m.baseline q).2, rfl, hc,
        fun h => he (Or.inl h), fun h => he (Or.inr h), ?_⟩
      simp [m1SearchRanked, hc, he]
  · left
    simp [m1SearchRanked, hc]

/-!  Sortedness and truncation of the ranked output. -/

/-- The document positions of the scored list are pairwise distinct. -/
theorem scoreCandidates_fst_nodup (e : BaselineBooleanSearch) (C : Finset Nat)
    (ts : List Term) : ((scoreCandidates e C ts).map Prod.fst).Nodup := by
  unfold scoreCandidates
  rw [List.map_map]
  have h : (Prod.fst ∘ fun docId =>
      (docId, countMatches ts
        (tokenize (reviewAt e.reviews docId).text e.lowercase))) = id := rfl
  rw [h, List.map_id]
  exact finsetAsc_nodup C

/-- The ranked, truncated output is strictly ordered by score descending
with position ascending as tie-break. -/
theorem rankTruncate_sorted (e : BaselineBooleanSearch) (C : Finset Nat)
    (ts : List Term) (k : Nat) :
    List.Pairwise resultOrder (rankTruncate e C ts k) := by
  unfold rankTruncate
  by_cases hC : C = ∅
  · simp [hC]
  · rw [if_neg hC]
    refine List.Pairwise.sublist (List.take_sublist _ _) ?_
    have hsorted : List.Pairwise scoreRel
        (List.insertionSort scoreRel (scoreCandidates e C ts)) :=
      List.sorted_insertionSort scoreRel _
    have hnodup : ((List.insertionSort scoreRel
        (scoreCandidates e C ts)).map Prod.fst).Nodup :=
      (((List.perm_insertionSort scoreRel _).map Prod.fst).nodup_iff).mpr
        (scoreCandidates_fst_nodup e C ts)
    have hne : List.Pairwise (fun a b : Nat × Nat => a.1 ≠ b.1)
        (List.insertionSort scoreRel (scoreCandidates e C ts)) :=
      List.pairwise_map.mp hnodup
    refine (hsorted.and hne).imp ?_
    rintro a b ⟨hle, hab⟩
    unfold scoreRel at hle
    unfold resultOrder
    omega

/-- The ranked output never exceeds the requested length. -/
theorem rankTruncate_length (e : BaselineBooleanSearch) (C : Finset Nat)
    (ts : List Term) (k : Nat) : (rankTruncate e C ts k).length ≤ k := by
  unfold rankTruncate
  by_cases hC : C = ∅
  · simp [hC]
  · rw [if_neg hC]
    exact List.length_take_le _ _

/-- Sortedness and truncation for every baseline search. -/
theorem searchRanked_sorted_len (e : BaselineBooleanSearch) (q : List Char)
    (mode : String) (k : Nat) :
    List.Pairwise resultOrder (searchRanked e q mode k) ∧
    (searchRanked e q mode k).length ≤ k := by
  rcases searchRanked_eq e q mode k with ⟨a, o, _, _, _, _, _, heq⟩ | ⟨_, heq⟩
  · rw [heq]
    exact ⟨rankTruncate_sorted _ _ _ _, rankTruncate_length _ _ _ _⟩
  · rw [heq]
    rcases regularRanked_eq e (normalizeQuery e q) mode k with ⟨_, h2⟩ | ⟨_, h2⟩ <;>
      rw [h2]
    · exact ⟨List.Pairwise.nil, by simp⟩
    · exact ⟨rankTruncate_sorted _ _ _ _, rankTruncate_length _ _ _ _⟩

/-- Sortedness and truncation for every Method-1 search. -/
theorem m1SearchRanked_sorted_len (m : RatingFilterSearch) (q : List Char)
    (k : Nat) :
    List.Pairwise resultOrder (m1SearchRanked m q k) ∧
    (m1SearchRanked m q k).length ≤ k := by
  rcases m1SearchRanked_eq m q k with h | ⟨a, o, _, _, _, _, heq⟩
  · rw [h]
    exact searchRanked_sorted_len m.baseline q andMode k
  · rw [heq]
    by_cases hC : aspectOpinionCandidates m.baseline a o = ∅
    · rw [if_pos hC]
      exact ⟨List.Pairwise.nil, by simp⟩
    · rw [if_neg hC]
      exact ⟨rankTruncate_sorted _ _ _ _, rankTruncate_length _ _ _ _⟩

/-!  Claim theorems. -/

/-- C6: every result sequence of the baseline search (both branches) and
the rating-filtered search is sorted by score descending with document
position ascending as a strict tie-break, is truncated to at most `k`
results, and re-running the same query yields the identical output; the
result objects are exactly the ranked pairs wrapped with their reviews. -/
theorem c6_results_sorted_truncated_deterministic
    (e : BaselineBooleanSearch) (m : RatingFilterSearch) (q : List Char)
    (mode : String) (k : Nat) :
    List.Pairwise resultOrder (searchRanked e q mode k) ∧
    (searchRanked e q mode k).length ≤ k ∧
    List.Pairwise resultOrder (m1SearchRanked m q k) ∧
    (m1SearchRanked m q k).length ≤ k ∧
    searchRanked e q mode k = searchRanked e q mode k ∧
    m1SearchRanked m q k = m1SearchRanked m q k ∧
    search e q mode k = toResults e.reviews (searchRanked e q mode k) ∧
    m1Search m q k = toResults m.reviews (m1SearchRanked m q k) :=
  ⟨(searchRanked_sorted_len e q mode k).1, (searchRanked_sorted_len e q mode k).2,
   (m1SearchRanked_sorted_len m q k).1, (m1SearchRanked_sorted_len m q k).2,
   rfl, rfl, rfl, rfl⟩

/-- C1 (counterexample): on the query `audio audio`, whose term sequence
repeats `audio`, the returned score is 2, not the deduplicated count 1, so
the claimed deduplicated-score formula fails. -/
theorem c1_counterexample :
    ¬ (∀ p ∈ searchRanked wE qAudioAudio andMode 10,
        p.2 = dedupMatchCount (queryTermsOf wE qAudioAudio)
          (tokenize (reviewAt wE.reviews p.1).text wE.lowercase)) := by
  decide

/-- C1 (amended): the score of every returned pair equals the number of
entries of the query-term sequence, counted WITH multiplicity, that occur
in the candidate body re-tokenized without stopword filtering. -/
theorem c1_score_counts_query_occurrences (e : BaselineBooleanSearch)
    (q : List Char) (mode : String) (k : Nat) (p : Nat × Nat)
    (hp : p ∈ searchRanked e q mode k) :
    p.2 = countMatches (queryTermsOf e q)
      (tokenize (reviewAt e.reviews p.1).text e.lowercase) := by
  rcases searchRanked_eq e q mode k with ⟨a, o, _, _, _, _, hqt, heq⟩ | ⟨hqt, heq⟩
  · rw [heq] at hp
    rw [hqt]
    exact (mem_scoreCandidates _ _ _ _ (mem_rankTruncate _ _ _ _ _ hp)).2
  · rw [heq] at hp
    rcases regularRanked_eq e (normalizeQuery e q) mode k with ⟨_, h2⟩ | ⟨_, h2⟩
    · rw [h2] at hp
      simp at hp
    · rw [h2] at hp
      rw [hqt]
      exact (mem_scoreCandidates _ _ _ _ (mem_rankTruncate _ _ _ _ _ hp)).2

/-- Witness for the amended C1 at the query `audio` on `wE`. -/
theorem c1_witness :
    ((0, 1) ∈ searchRanked wE qAudio andMode 10) ∧
    (0, 1).2 = countMatches (queryTermsOf wE qAudio)
      (tokenize (reviewAt wE.reviews 0).text wE.lowercase) :=
  ⟨by decide, c1_score_counts_query_occurrences wE qAudio andMode 10 (0, 1)
    (by decide)⟩

/-- Positivity of scores surviving ranking, given that every candidate
holds some query term in its tokenized body. -/
theorem rankTruncate_score_pos (revs : List Review) (stop : List Term)
    (lc : Bool) (C : Finset Nat) (ts : List Term) (k : Nat) (p : Nat × Nat)
    (hC : ∀ d ∈ C, ∃ t ∈ ts, d ∈ buildIndex revs stop lc t)
    (hp : p ∈ rankTruncate (mkBaseline revs stop lc) C ts k) : 1 ≤ p.2 := by
  have hsc := mem_scoreCandidates _ _ _ _ (mem_rankTruncate _ _ _ _ _ hp)
  obtain ⟨t, ht, hd⟩ := hC p.1 hsc.1
  obtain ⟨r, hr, htok, _⟩ := mem_buildIndex revs stop lc t p.1 hd
  rw [hsc.2]
  refine countMatches_pos ts _ t ht ?_
  have hra : reviewAt (mkBaseline revs stop lc).reviews p.1 = r :=
    reviewAt_of_getElem revs p.1 r hr
  rw [hra]
  exact htok

/-- Every baseline result has score at least one. -/
theorem searchRanked_score_pos (revs : List Review) (stop : List Term)
    (lc : Bool) (q : List Char) (mode : String) (k : Nat) (p : Nat × Nat)
    (hp : p ∈ searchRanked (mkBaseline revs stop lc) q mode k) : 1 ≤ p.2 := by
  rcases searchRanked_eq (mkBaseline revs stop lc) q mode k with
    ⟨a, o, _, _, _, _, _, heq⟩ | ⟨_, heq⟩
  · rw [heq] at hp
    refine rankTruncate_score_pos revs stop lc _ _ k p ?_ hp
    intro d hd
    have hd1 : d ∈ getDocsWithAnyTerm (mkBaseline revs stop lc) a :=
      (Finset.mem_inter.mp hd).1
    obtain ⟨t, ht, hdt⟩ := (mem_getDocsWithAnyTerm _ a d).mp hd1
    exact ⟨t, List.mem_append_left o ht, hdt⟩
  · rw [heq] at hp
    rcases regularRanked_eq (mkBaseline revs stop lc)
        (normalizeQuery (mkBaseline revs stop lc) q) mode k with
      ⟨_, h2⟩ | ⟨hne, h2⟩
    · rw [h2] at hp
      simp at hp
    · rw [h2] at hp
      refine rankTruncate_score_pos revs stop lc _ _ k p ?_ hp
      intro d hd
      exact mem_regularCandidates _ _ mode d hne hd

/-- Every Method-1 result has score at least one. -/
theorem m1SearchRanked_score_pos (revs : List Review) (posW negW : List Term)
    (q : List Char) (k : Nat) (p : Nat × Nat)
    (hp : p ∈ m1SearchRanked (mkRatingFilterSearch revs posW negW) q k) :
    1 ≤ p.2 := by
  rcases m1SearchRanked_eq (mkRatingFilterSearch revs posW negW) q k with
    h | ⟨a, o, _, _, _, _, heq⟩
  · rw [h] at hp
    exact searchRanked_score_pos revs DEFAULT_STOPWORDS true q andMode k p hp
  · rw [heq] at hp
    by_cases hC : aspectOpinionCandidates
        (mkRatingFilterSearch revs posW negW).baseline a o = ∅
    · rw [if_pos hC] at hp
      simp at hp
    · rw [if_neg hC] at hp
      refine rankTruncate_score_pos revs DEFAULT_STOPWORDS true _ _ k p ?_ hp
      intro d hd
      have hd' : d ∈ aspectOpinionCandidates
          (mkRatingFilterSearch revs posW negW).baseline a o := by
        revert hd
        split_ifs with h1 h2 <;> intro hd
        · exact Finset.filter_subset _ _ hd
        · exact Finset.filter_subset _ _ hd
        · exact hd
      have hd1 := (Finset.mem_inter.mp hd').1
      obtain ⟨t, ht, hdt⟩ := (mem_getDocsWithAnyTerm _ a d).mp hd1
      exact ⟨t, List.mem_append_left o ht, hdt⟩

/-- C10: every result returned by any search mode of an engine built over
a review corpus has score at least 1. -/
theorem c10_every_result_scores_at_least_one (revs : List Review)
    (stop : List Term) (lc : Bool) (posW negW : List Term) (q : List Char)
    (mode : String) (k : Nat) :
    (∀ res ∈ search (mkBaseline revs stop lc) q mode k, 1 ≤ res.score) ∧
    (∀ res ∈ m1Search (mkRatingFilterSearch revs posW negW) q k,
      1 ≤ res.score) := by
  constructor
  · intro res hres
    simp only [search, toResults] at hres
    obtain ⟨p, hp, rfl⟩ := List.mem_map.mp hres
    exact searchRanked_score_pos revs stop lc q mode k p hp
  · intro res hres
    simp only [m1Search, toResults] at hres
    obtain ⟨p, hp, rfl⟩ := List.mem_map.mp hres
    exact m1SearchRanked_score_pos revs posW negW q k p hp

/-- Witness for C10: concrete results of both engines with their scores. -/
theorem c10_witness :
    ((⟨wRev1, 1⟩ : BooleanSearchResult) ∈
      search (mkBaseline [wRev1, wRev2] [] true) qAudio andMode 10) ∧
    (1 ≤ (⟨wRev1, 1⟩ : BooleanSearchResult).score) ∧
    ((⟨wRev1, 2⟩ : BooleanSearchResult) ∈
      m1Search (mkRatingFilterSearch [wRev1, wRev2]
        [(r"good".data : Term)] [(r"poor".data : Term)]) qAudioGood 10) ∧
    (1 ≤ (⟨wRev1, 2⟩ : BooleanSearchResult).score) :=
  ⟨by decide,
   (c10_every_result_scores_at_least_one [wRev1, wRev2] [] true
      [(r"good".data : Term)] [(r"poor".data : Term)] qAudio andMode 10).1
     ⟨wRev1, 1⟩ (by decide),
   by decide,
   (c10_every_result_scores_at_least_one [wRev1, wRev2] [] true
      [(r"good".data : Term)] [(r"poor".data : Term)] qAudioGood andMode 10).2
     ⟨wRev1, 2⟩ (by decide)⟩

/-- C2 (counterexample): a truthy but unparseable rating field is NOT
recovered — `int(rating)` raises and the error propagates out of
`Review.__init__`. -/
theorem c2_counterexample :
    ratingOfField (PyValue.str (r"abc".data)) = Except.error valueErrorMsg :=
  rfl

/-- C2 (amended): the helpful and total-helpful-vote fields always recover
with default 0 via `_safe_int`; the rating field recovers with 0 only when
the raw value is falsy, while a truthy unparseable rating raises, the
error propagating out of construction. -/
theorem c2_field_recovery (s : List Char) (v : PyValue)
    (hs : pyIntOfString s = Except.error valueErrorMsg)
    (hv : pyTruthy v = false) :
    safeInt (PyValue.str s) = 0 ∧
    safeInt PyValue.none = 0 ∧
    ratingOfField v = Except.ok 0 ∧
    (s ≠ [] → ratingOfField (PyValue.str s) = Except.error valueErrorMsg) := by
  refine ⟨?_, rfl, ?_, ?_⟩
  · by_cases h0 : s = []
    · subst h0
      rfl
    · have hno : ¬(PyValue.str s = PyValue.none ∨ PyValue.str s = PyValue.str []) := by
        rintro (h1 | h2)
        · exact PyValue.noConfusion h1
        · injection h2 with h3
          exact h0 h3
      simp only [safeInt, if_neg hno]
      rw [show pyInt (PyValue.str s) = pyIntOfString s from rfl, hs]
  · simp [ratingOfField, hv]
  · intro hne
    have htr : pyTruthy (PyValue.str s) = true := by
      simp [pyTruthy, hne]
    simp only [ratingOfField, htr, if_pos]
    rw [show pyInt (PyValue.str s) = pyIntOfString s from rfl, hs]

/-- Witness for the amended C2 at the raw values `"abc"` and `0`. -/
theorem c2_witness :
    (pyIntOfString (r"abc".data) = Except.error valueErrorMsg) ∧
    (pyTruthy (PyValue.int 0) = false) ∧
    (safeInt (PyValue.str (r"abc".data)) = 0 ∧
      safeInt PyValue.none = 0 ∧
      ratingOfField (PyValue.int 0) = Except.ok 0 ∧
      ((r"abc".data : List Char) ≠ [] →
        ratingOfField (PyValue.str (r"abc".data)) = Except.error valueErrorMsg)) :=
  ⟨rfl, rfl, c2_field_recovery (r"abc".data) (PyValue.int 0) rfl rfl⟩

/-- C5: an aspect-opinion query with an empty side falls back, in both
engines, to plain-query handling of the ORIGINAL raw query string. -/
theorem c5_empty_side_falls_back_to_plain (e : BaselineBooleanSearch)
    (m : RatingFilterSearch) (q : List Char) (mode : String) (k : Nat)
    (hc : ':' ∈ q) :
    ((parseOpinionQuery e q).1 = [] ∨ (parseOpinionQuery e q).2 = [] →
      searchRanked e q mode k = regularRanked e (normalizeQuery e q) mode k ∧
      search e q mode k =
        toResults e.reviews (regularRanked e (normalizeQuery e q) mode k)) ∧
    ((parseOpinionQuery m.baseline q).1 = [] ∨
        (parseOpinionQuery m.baseline q).2 = [] →
      m1SearchRanked m q k =
        regularRanked m.baseline (normalizeQuery m.baseline q) andMode k) := by
  constructor
  · intro he
    have h1 : searchRanked e q mode k =
        regularRanked e (normalizeQuery e q) mode k := by
      simp [searchRanked, hc, he]
    exact ⟨h1, by rw [search, h1]⟩
  · intro he
    have h1 : m1SearchRanked m q k = searchRanked m.baseline q andMode k := by
      simp [m1SearchRanked, hc, he]
    rw [h1]
    simp [searchRanked, hc, he]

/-- Witness for C5 at the query `audio:` (empty opinion side) on both
fixture engines. -/
theorem c5_witness :
    (searchRanked wE qAudioColon andMode 10 =
      regularRanked wE (normalizeQuery wE qAudioColon) andMode 10) ∧
    (m1SearchRanked wM qAudioColon 10 =
      regularRanked wM.baseline (normalizeQuery wM.baseline qAudioColon)
        andMode 10) :=
  ⟨((c5_empty_side_falls_back_to_plain wE wM qAudioColon andMode 10
      (by decide)).1 (by decide)).1,
   (c5_empty_side_falls_back_to_plain wE wM qAudioColon andMode 10
      (by decide)).2 (by decide)⟩

/-- C7: for a non-empty term sequence, the AND-mode candidate set is a
subset of the OR-mode candidate set. -/
theorem c7_and_candidates_subset_or (e : BaselineBooleanSearch)
    (terms : List Term) (hne : terms ≠ []) :
    regularCandidates e terms andMode ⊆ regularCandidates e terms orMode := by
  obtain ⟨t0, ts, rfl⟩ := List.exists_cons_of_ne_nil hne
  intro d hd
  unfold regularCandidates at hd ⊢
  rw [if_pos rfl] at hd
  rw [if_neg (by decide : ¬(orMode = andMode))]
  simp only [List.map_cons, List.tail_cons, List.headD_cons] at hd
  have h1 := foldl_inter_subset (ts.map fun t => e.invertedIndex t)
    (e.invertedIndex t0) hd
  rw [mem_foldl_union]
  exact Or.inr ⟨e.invertedIndex t0,
    List.mem_map_of_mem _ (List.mem_cons_self t0 ts), h1⟩

/-- Witness for C7 at the one-term sequence `[audio]`. -/
theorem c7_witness :
    ([(r"audio".data : Term)] ≠ ([] : List Term)) ∧
    regularCandidates wE [(r"audio".data : Term)] andMode ⊆
      regularCandidates wE [(r"audio".data : Term)] orMode :=
  ⟨by decide, c7_and_candidates_subset_or wE [(r"audio".data : Term)] (by decide)⟩

/-- C8: degenerate inputs produce empty results, not errors — an empty
plain-term sequence yields an empty result list, a term occurring in no
document has empty postings, and a plain query made of a single unknown
term yields an empty result list. -/
theorem c8_degenerate_inputs_empty_results :
    (∀ (e : BaselineBooleanSearch) (q : List Char) (mode : String) (k : Nat),
      ¬ ':' ∈ q → normalizeQuery e q = [] → searchRanked e q mode k = []) ∧
    (∀ (revs : List Review) (stop : List Term) (lc : Bool) (t : Term),
      (∀ r ∈ revs, t ∉ tokenize r.text lc) → buildIndex revs stop lc t = ∅) ∧
    (∀ (e : BaselineBooleanSearch) (q : List Char) (mode : String) (k : Nat)
      (t : Term), ¬ ':' ∈ q → normalizeQuery e q = [t] →
      e.invertedIndex t = ∅ → searchRanked e q mode k = []) := by
  refine ⟨?_, ?_, ?_⟩
  · intro e q mode k hc hn
    simp [searchRanked, hc, regularRanked, hn]
  · intro revs stop lc t habs
    rw [Finset.eq_empty_iff_forall_not_mem]
    intro d hd
    obtain ⟨r, hr, htok, _⟩ := mem_buildIndex revs stop lc t d hd
    exact habs r (List.getElem?_mem hr) htok
  · intro e q mode k t hc hn hemp
    have h1 : searchRanked e q mode k =
        regularRanked e (normalizeQuery e q) mode k := by
      simp [searchRanked, hc]
    rw [h1, hn]
    have h2 : regularCandidates e [t] mode = ∅ := by
      unfold regularCandidates
      by_cases hm : mode = andMode
      · rw [if_pos hm]
        simp [hemp]
      · rw [if_neg hm]
        simp [hemp]
    simp [regularRanked, rankTruncate, h2]

/-- Witness for C8 on the fixture engine: the empty query, the unknown
term `zzz`, and the query `zzz`. -/
theorem c8_witness :
    (searchRanked wE [] andMode 10 = []) ∧
    (buildIndex [wRev1, wRev2] [] true tZzz = ∅) ∧
    (searchRanked wE qZzz andMode 10 = []) :=
  ⟨c8_degenerate_inputs_empty_results.1 wE [] andMode 10 (by decide) (by decide),
   c8_degenerate_inputs_empty_results.2.1 [wRev1, wRev2] [] true tZzz
     (by decide),
   c8_degenerate_inputs_empty_results.2.2 wE qZzz andMode 10 tZzz (by decide)
     (by decide) (by decide)⟩

/-- Ranking an empty candidate set gives no results. -/
theorem rankTruncate_empty (e : BaselineBooleanSearch) (ts : List Term)
    (k : Nat) : rankTruncate e ∅ ts k = [] := by
  simp [rankTruncate]

/-- Trichotomy of `_get_opinion_polarity` in terms of the two lexicon
membership counts. -/
theorem getOpinionPolarity_spec (m : RatingFilterSearch) (o : List Term) :
    (getOpinionPolarity m o = positivePolarity ↔
      (o.filter (fun t => decide (t ∈ m.negative_words))).length <
      (o.filter (fun t => decide (t ∈ m.positive_words))).length) ∧
    (getOpinionPolarity m o = negativePolarity ↔
      (o.filter (fun t => decide (t ∈ m.positive_words))).length <
      (o.filter (fun t => decide (t ∈ m.negative_words))).length) ∧
    (getOpinionPolarity m o = neutralPolarity ↔
      (o.filter (fun t => decide (t ∈ m.positive_words))).length =
      (o.filter (fun t => decide (t ∈ m.negative_words))).length) := by
  set pc := (o.filter (fun t => decide (t ∈ m.positive_words))).length with hpc
  set nc := (o.filter (fun t => decide (t ∈ m.negative_words))).length with hnc
  have hval : getOpinionPolarity m o =
      if nc < pc then positivePolarity
      else if pc < nc then negativePolarity else neutralPolarity := rfl
  rw [hval]
  by_cases h1 : nc < pc
  · rw [if_pos h1]
    exact ⟨⟨fun _ => h1, fun _ => rfl⟩,
      ⟨fun h => absurd h (by decide), fun h => absurd h (by omega)⟩,
      ⟨fun h => absurd h (by decide), fun h => absurd h (by omega)⟩⟩
  · by_cases h2 : pc < nc
    · rw [if_neg h1, if_pos h2]
      exact ⟨⟨fun h => absurd h (by decide), fun h => absurd h (by omega)⟩,
        ⟨fun _ => h2, fun _ => rfl⟩,
        ⟨fun h => absurd h (by decide), fun h => absurd h (by omega)⟩⟩
    · rw [if_neg h1, if_neg h2]
      exact ⟨⟨fun h => absurd h (by decide), fun h => absurd h (by omega)⟩,
        ⟨fun h => absurd h (by decide), fun h => absurd h (by omega)⟩,
        ⟨fun _ => by omega, fun _ => rfl⟩⟩

/-- The main branch of `RatingFilterSearch.search` ranks whatever the
polarity filter leaves, an empty filtered set yielding no results. -/
theorem m1_main_eq (m : RatingFilterSearch) (q : List Char) (k : Nat)
    (a o : List Term) (hc : ':' ∈ q)
    (hpar : parseOpinionQuery m.baseline q = (a, o)) (ha : a ≠ [])
    (ho : o ≠ []) (F : Finset Nat)
    (hF : (if getOpinionPolarity m o = positivePolarity then
            (aspectOpinionCandidates m.baseline a o).filter
              (fun c => 3 < (reviewAt m.reviews c).rating)
          else if getOpinionPolarity m o = negativePolarity then
            (aspectOpinionCandidates m.baseline a o).filter
              (fun c => (reviewAt m.reviews c).rating ≤ 3)
          else aspectOpinionCandidates m.baseline a o) = F)
    (hFsub : F ⊆ aspectOpinionCandidates m.baseline a o) :
    m1SearchRanked m q k = rankTruncate m.baseline F (a ++ o) k := by
  by_cases hC : aspectOpinionCandidates m.baseline a o = ∅
  · have hF0 : F = ∅ := Finset.subset_empty.mp (hC ▸ hFsub)
    have hL : m1SearchRanked m q k = [] := by
      simp [m1SearchRanked, hc, hpar, ha, ho, hC]
    rw [hL, hF0, rankTruncate_empty]
  · have hL : m1SearchRanked m q k = rankTruncate m.baseline
        (if getOpinionPolarity m o = positivePolarity then
          (aspectOpinionCandidates m.baseline a o).filter
            (fun c => 3 < (reviewAt m.reviews c).rating)
        else if getOpinionPolarity m o = negativePolarity then
          (aspectOpinionCandidates m.baseline a o).filter
            (fun c => (reviewAt m.reviews c).rating ≤ 3)
        else aspectOpinionCandidates m.baseline a o) (a ++ o) k := by
      simp [m1SearchRanked, hc, hpar, ha, ho, hC]
    rw [hL, hF]

/-- C3: the polarity classification compares lexicon-membership counts,
and the rating filter keeps rating > 3 candidates under POSITIVE, rating
≤ 3 under NEGATIVE, everything under NEUTRAL, returning no results when
the filter empties the candidate set. -/
theorem c3_polarity_rating_filter (revs : List Review)
    (posW negW : List Term) (q : List Char) (k : Nat) (a o : List Term)
    (hc : ':' ∈ q)
    (hpar : parseOpinionQuery
      (mkRatingFilterSearch revs posW negW).baseline q = (a, o))
    (ha : a ≠ []) (ho : o ≠ []) :
    (getOpinionPolarity (mkRatingFilterSearch revs posW negW) o =
        positivePolarity ↔
      (o.filter (fun t => decide (t ∈ negW))).length <
      (o.filter (fun t => decide (t ∈ posW))).length) ∧
    (getOpinionPolarity (mkRatingFilterSearch revs posW negW) o =
        negativePolarity ↔
      (o.filter (fun t => decide (t ∈ posW))).length <
      (o.filter (fun t => decide (t ∈ negW))).length) ∧
    (getOpinionPolarity (mkRatingFilterSearch revs posW negW) o =
        neutralPolarity ↔
      (o.filter (fun t => decide (t ∈ posW))).length =
      (o.filter (fun t => decide (t ∈ negW))).length) ∧
    ((o.filter (fun t => decide (t ∈ negW))).length <
        (o.filter (fun t => decide (t ∈ posW))).length →
      m1SearchRanked (mkRatingFilterSearch revs posW negW) q k =
        rankTruncate (mkRatingFilterSearch revs posW negW).baseline
          ((aspectOpinionCandidates
              (mkRatingFilterSearch revs posW negW).baseline a o).filter
            (fun c => 3 < (reviewAt revs c).rating)) (a ++ o) k) ∧
    ((o.filter (fun t => decide (t ∈ posW))).length <
        (o.filter (fun t => decide (t ∈ negW))).length →
      m1SearchRanked (mkRatingFilterSearch revs posW negW) q k =
        rankTruncate (mkRatingFilterSearch revs posW negW).baseline
          ((aspectOpinionCandidates
              (mkRatingFilterSearch revs posW negW).baseline a o).filter
            (fun c => (reviewAt revs c).rating ≤ 3)) (a ++ o) k) ∧
    ((o.filter (fun t => decide (t ∈ posW))).length =
        (o.filter (fun t => decide (t ∈ negW))).length →
      m1SearchRanked (mkRatingFilterSearch revs posW negW) q k =
        rankTruncate (mkRatingFilterSearch revs posW negW).baseline
          (aspectOpinionCandidates
            (mkRatingFilterSearch revs posW negW).baseline a o) (a ++ o) k) ∧
    ((o.filter (fun t => decide (t ∈ negW))).length <
        (o.filter (fun t => decide (t ∈ posW))).length →
      (aspectOpinionCandidates
          (mkRatingFilterSearch revs posW negW).baseline a o).filter
        (fun c => 3 < (reviewAt revs c).rating) = ∅ →
      m1SearchRanked (mkRatingFilterSearch revs posW negW) q k = []) ∧
    ((o.filter (fun t => decide (t ∈ posW))).length <
        (o.filter (fun t => decide (t ∈ negW))).length →
      (aspectOpinionCandidates
          (mkRatingFilterSearch revs posW negW).baseline a o).filter
        (fun c => (reviewAt revs c).rating ≤ 3) = ∅ →
      m1SearchRanked (mkRatingFilterSearch revs posW negW) q k = []) := by
  obtain ⟨hp1, hp2, hp3⟩ :=
    getOpinionPolarity_spec (mkRatingFilterSearch revs posW negW) o
  have hpos : (o.filter (fun t => decide (t ∈ negW))).length <
      (o.filter (fun t => decide (t ∈ posW))).length →
      m1SearchRanked (mkRatingFilterSearch revs posW negW) q k =
        rankTruncate (mkRatingFilterSearch revs posW negW).baseline
          ((aspectOpinionCandidates
              (mkRatingFilterSearch revs posW negW).baseline a o).filter
            (fun c => 3 < (reviewAt revs c).rating)) (a ++ o) k := by
    intro hlt
    have hpol : getOpinionPolarity (mkRatingFilterSearch revs posW negW) o =
        positivePolarity := hp1.mpr hlt
    refine m1_main_eq (mkRatingFilterSearch revs posW negW) q k a o hc hpar
      ha ho _ ?_ (Finset.filter_subset _ _)
    rw [hpol, if_pos rfl]
    rfl
  have hneg : (o.filter (fun t => decide (t ∈ posW))).length <
      (o.filter (fun t => decide (t ∈ negW))).length →
      m1SearchRanked (mkRatingFilterSearch revs posW negW) q k =
        rankTruncate (mkRatingFilterSearch revs posW negW).baseline
          ((aspectOpinionCandidates
              (mkRatingFilterSearch revs posW negW).baseline a o).filter
            (fun c => (reviewAt revs c).rating ≤ 3)) (a ++ o) k := by
    intro hlt
    have hpol : getOpinionPolarity (mkRatingFilterSearch revs posW negW) o =
        negativePolarity := hp2.mpr hlt
    refine m1_main_eq (mkRatingFilterSearch revs posW negW) q k a o hc hpar
      ha ho _ ?_ (Finset.filter_subset _ _)
    rw [hpol, if_neg (by decide), if_pos rfl]
    rfl
  have hneu : (o.filter (fun t => decide (t ∈ posW))).length =
      (o.filter (fun t => decide (t ∈ negW))).length →
      m1SearchRanked (mkRatingFilterSearch revs posW negW) q k =
        rankTruncate (mkRatingFilterSearch revs posW negW).baseline
          (aspectOpinionCandidates
            (mkRatingFilterSearch revs posW negW).baseline a o) (a ++ o) k := by
    intro hnn
    have hpol : getOpinionPolarity (mkRatingFilterSearch revs posW negW) o =
        neutralPolarity := hp3.mpr hnn
    refine m1_main_eq (mkRatingFilterSearch revs posW negW) q k a o hc hpar
      ha ho _ ?_ (Finset.Subset.refl _)
    rw [hpol, if_neg (by decide), if_neg (by decide)]
  refine ⟨hp1, hp2, hp3, hpos, hneg, hneu, ?_, ?_⟩
  · intro hlt h0
    rw [hpos hlt, h0, rankTruncate_empty]
  · intro hlt h0
    rw [hneg hlt, h0, rankTruncate_empty]

/-- Witness for C3: on `audio:good` with lexicons `{good}` / `{poor}` the
classification is POSITIVE and only the five-star document survives. -/
theorem c3_witness :
    (getOpinionPolarity wM wOpinion = positivePolarity) ∧
    (m1SearchRanked wM qAudioGood 10 =
      rankTruncate wM.baseline
        ((aspectOpinionCandidates wM.baseline wAspect wOpinion).filter
          (fun c => 3 < (reviewAt [wRev1, wRev2] c).rating))
        (wAspect ++ wOpinion) 10) :=
  ⟨(c3_polarity_rating_filter [wRev1, wRev2] [(r"good".data : Term)]
      [(r"poor".data : Term)] qAudioGood 10 wAspect wOpinion (by decide)
      (by decide) (by decide) (by decide)).1.mpr (by decide),
   (c3_polarity_rating_filter [wRev1, wRev2] [(r"good".data : Term)]
      [(r"poor".data : Term)] qAudioGood 10 wAspect wOpinion (by decide)
      (by decide) (by decide) (by decide)).2.2.2.1 (by decide)⟩

/-- The union of postings over a term list is the indexed union of the
postings sets. -/
theorem getDocs_biUnion (e : BaselineBooleanSearch) (ts : List Term) :
    getDocsWithAnyTerm e ts =
      ts.toFinset.biUnion (fun t => e.invertedIndex t) := by
  ext d
  rw [mem_getDocsWithAnyTerm, Finset.mem_biUnion]
  simp

/-- C4: for a separator query with non-empty sides, the boolean candidate
set is (union of aspect postings) ∩ (union of opinion postings), in the
baseline search and — before the rating filter — in the rating-filtered
search as well. -/
theorem c4_candidates_intersection_of_unions (e : BaselineBooleanSearch)
    (m : RatingFilterSearch) (q : List Char) (mode : String) (k : Nat)
    (a o : List Term) (hc : ':' ∈ q) (ha : a ≠ []) (ho : o ≠ []) :
    (aspectOpinionCandidates e a o =
      a.toFinset.biUnion (fun t => e.invertedIndex t) ∩
      o.toFinset.biUnion (fun t => e.invertedIndex t)) ∧
    (parseOpinionQuery e q = (a, o) →
      searchRanked e q mode k = rankTruncate e
        (a.toFinset.biUnion (fun t => e.invertedIndex t) ∩
         o.toFinset.biUnion (fun t => e.invertedIndex t)) (a ++ o) k) ∧
    (parseOpinionQuery m.baseline q = (a, o) →
      ∃ F, F ⊆ a.toFinset.biUnion (fun t => m.baseline.invertedIndex t) ∩
          o.toFinset.biUnion (fun t => m.baseline.invertedIndex t) ∧
        m1SearchRanked m q k = rankTruncate m.baseline F (a ++ o) k ∧
        (getOpinionPolarity m o = neutralPolarity →
          F = a.toFinset.biUnion (fun t => m.baseline.invertedIndex t) ∩
            o.toFinset.biUnion (fun t => m.baseline.invertedIndex t))) := by
  have hbi : ∀ (u : BaselineBooleanSearch), aspectOpinionCandidates u a o =
      a.toFinset.biUnion (fun t => u.invertedIndex t) ∩
      o.toFinset.biUnion (fun t => u.invertedIndex t) := by
    intro u
    unfold aspectOpinionCandidates
    rw [getDocs_biUnion, getDocs_biUnion]
  refine ⟨hbi e, ?_, ?_⟩
  · intro hpar
    have h1 : searchRanked e q mode k =
        rankTruncate e (aspectOpinionCandidates e a o) (a ++ o) k := by
      simp [searchRanked, hc, hpar, ha, ho]
    rw [h1, hbi e]
  · intro hpar
    refine ⟨(if getOpinionPolarity m o = positivePolarity then
        (aspectOpinionCandidates m.baseline a o).filter
          (fun c => 3 < (reviewAt m.reviews c).rating)
      else if getOpinionPolarity m o = negativePolarity then
        (aspectOpinionCandidates m.baseline a o).filter
          (fun c => (reviewAt m.reviews c).rating ≤ 3)
      else aspectOpinionCandidates m.baseline a o), ?_, ?_, ?_⟩
    · rw [← hbi m.baseline]
      split_ifs with h1 h2
      · exact Finset.filter_subset _ _
      · exact Finset.filter_subset _ _
      · exact Finset.Subset.refl _
    · refine m1_main_eq m q k a o hc hpar ha ho _ rfl ?_
      split_ifs with h1 h2
      · exact Finset.filter_subset _ _
      · exact Finset.filter_subset _ _
      · exact Finset.Subset.refl _
    · intro hneu
      rw [hneu, if_neg (by decide), if_neg (by decide)]
      exact hbi m.baseline

/-- Witness for C4 at the query `audio:good` on the fixture engine. -/
theorem c4_witness :
    (aspectOpinionCandidates wE wAspect wOpinion =
      wAspect.toFinset.biUnion (fun t => wE.invertedIndex t) ∩
      wOpinion.toFinset.biUnion (fun t => wE.invertedIndex t)) ∧
    (searchRanked wE qAudioGood andMode 10 = rankTruncate wE
      (wAspect.toFinset.biUnion (fun t => wE.invertedIndex t) ∩
       wOpinion.toFinset.biUnion (fun t => wE.invertedIndex t))
      (wAspect ++ wOpinion) 10) :=
  ⟨(c4_candidates_intersection_of_unions wE wM qAudioGood andMode 10 wAspect
      wOpinion (by decide) (by decide) (by decide)).1,
   (c4_candidates_intersection_of_unions wE wM qAudioGood andMode 10 wAspect
      wOpinion (by decide) (by decide) (by decide)).2.1 (by decide)⟩

end OpinionSearch
